import Mathlib

/-!
Verification of the span-to-metrics conversion code of waxmoth/fn.

The repository holds two near-duplicate implementations:

* package `spanexporter` (file `src/unnamed/part_000`): an OpenCensus
  `trace.Exporter` that turns finished spans into Prometheus histograms,
  keyed by sanitized span name, with a lazily created histogram per name
  and one-shot registration of the collector with the Prometheus registry;
* package `server` (file `src/api/server/spanconverter.go`): a `Converter`
  that turns finished spans into OpenCensus measures/views.

Both are embedded below.  Machine integers (`int64` nanosecond durations)
are modelled as `Int` with Go's truncating division `Int.tdiv`; the final
`float64` conversion in the Go code is exact for every representable
millisecond count (|ms| ≤ 2^63/10^6 < 2^53), so observations are kept as
`Int`.  `time.Time.Sub`'s saturation at ±2^63 ns (spans longer than about
292 years) is outside the model.  Go strings are modelled as Lean `String`
(lists of unicode scalar values); the byte-level operations of the Go code
(`len`, `s[:100]`, `s[0]`) are modelled explicitly via UTF-8 byte sizes.
-/

namespace SpanMetrics

/-- Model of Go `unicode.IsLetter` (category L).  Exact on the range
U+0000..U+00FF: ASCII letters, ª (U+00AA), µ (U+00B5), º (U+00BA) and the
Latin-1 letters U+00C0..U+00FF minus × (U+00D7) and ÷ (U+00F7).  Code
points above U+00FF, where Go consults the full Unicode tables, are not
modelled and return `false`; every concrete character used in the theorems
below lies in the modelled range (U+FFFD, used for truncation remainders,
is not a letter in Unicode either). -/
def goIsLetter (c : Char) : Bool :=
  c.isAlpha
  || c.toNat = 0xAA || c.toNat = 0xB5 || c.toNat = 0xBA
  || (0xC0 ≤ c.toNat && c.toNat ≤ 0xFF && c.toNat ≠ 0xD7 && c.toNat ≠ 0xF7)

/-- Model of Go `unicode.IsDigit` (category Nd).  Exact on the range
U+0000..U+00FF, where the only decimal digits are ASCII 0-9 (the Latin-1
superscripts ¹²³ are category No, not Nd).  Decimal digits above U+00FF
(e.g. Arabic-Indic) are not modelled and return `false`; no concrete
character used below lies in that range. -/
def goIsDigit (c : Char) : Bool :=
  c.isDigit

/-- `sanitizeRune` of both files: converts anything that is not a letter
or digit to an underscore. -/
def sanitizeRune (r : Char) : Char :=
  if goIsLetter r || goIsDigit r then r else '_'

/-- Go `len` of the UTF-8 encoding of a rune sequence. -/
def goLen : List Char → Nat
  | [] => 0
  | c :: cs => c.utf8Size + goLen cs

/-- Go byte-slicing `s[:b]`, whole-rune part: the longest rune sequence
whose UTF-8 encoding fits in `b` bytes. -/
def fitKeep : Nat → List Char → List Char
  | _, [] => []
  | b, c :: cs => if c.utf8Size ≤ b then c :: fitKeep (b - c.utf8Size) cs else []

/-- Byte budget left over by `fitKeep`: when the string does not fit in the
budget this is the number of bytes of the rune split by `s[:b]` that remain
inside the slice. -/
def fitRest : Nat → List Char → Nat
  | b, [] => b
  | b, c :: cs => if c.utf8Size ≤ b then fitRest (b - c.utf8Size) cs else b

/-- `labelKeySizeLimit = 100` of both files. -/
def labelKeySizeLimit : Nat := 100

/-- Go `s[:100]` applied when `len(s) > 100` (byte truncation).  A rune
split by the byte cut leaves `fitRest` dangling bytes inside the slice;
`strings.Map` later decodes each such byte as U+FFFD (`utf8.RuneError`,
one byte at a time), so they are represented here as that many U+FFFD
characters. -/
def goTruncate (s : List Char) : List Char :=
  if labelKeySizeLimit < goLen s then
    fitKeep labelKeySizeLimit s ++ List.replicate (fitRest labelKeySizeLimit s) '�'
  else s

/-- Go `unicode.IsDigit(rune(s[0]))`: the check is on the first BYTE of
the string.  For a one-byte (ASCII) first rune this is `IsDigit` of that
rune; the first byte of a multi-byte rune is in 0xC2..0xF4, where there
are no decimal digits, so the check is `false`. -/
def headIsDigitByte : List Char → Bool
  | [] => false
  | c :: _ => c.utf8Size = 1 && goIsDigit c

/-- Go `s[0] == '_'`: byte comparison with 0x5F; the first byte of a
multi-byte rune is ≥ 0xC2 and can never equal it. -/
def headIsUnderscoreByte : List Char → Bool
  | [] => false
  | c :: _ => c.utf8Size = 1 && c = '_'

/-- `sanitize` of both files, on the rune sequence: return empty input
unchanged; truncate to the first 100 bytes if longer; map every rune
through `sanitizeRune`; prepend `key_` if the first byte is a digit;
prepend `key` if the (possibly new) first byte is an underscore. -/
def sanitizeChars (s : List Char) : List Char :=
  if s = [] then s
  else
    let m := (goTruncate s).map sanitizeRune
    let m1 := if headIsDigitByte m then 'k' :: 'e' :: 'y' :: '_' :: m else m
    if headIsUnderscoreByte m1 then 'k' :: 'e' :: 'y' :: m1 else m1

/-- `sanitize` of both files (identical text in `part_000` lines 181-196
and `spanconverter.go` lines 100-115). -/
def sanitize (s : String) : String :=
  ⟨sanitizeChars s.data⟩

/-- `urlName` of both files: `strings.HasPrefix(s, "/")`. -/
def urlName (s : String) : Bool :=
  match s.data with
  | '/' :: _ => true
  | _ => false

/-- `trace.SpanData`, restricted to the attributes the code consumes.
Times are in nanoseconds since an arbitrary origin. -/
structure SpanData where
  Name : String
  StartTime : Int
  EndTime : Int
deriving DecidableEq

/-- `spanName` of both files: optional `namespace_` prefixing of the
sanitized span name. -/
def spanName (namespace_ : String) (s : SpanData) : String :=
  (if namespace_ ≠ "" then namespace_ ++ "_" else "") ++ sanitize s.Name

/-- The observation both files compute:
`float64(int64(sd.EndTime.Sub(sd.StartTime) / time.Millisecond))`.
Go's `/` on `int64` truncates toward zero (`Int.tdiv`); the `float64`
conversion is exact for every value this expression can take. -/
def goMillis (d : Int) : Int :=
  Int.tdiv d 1000000

/-- Lookup in a Go `map`, modelled as an association list with unique
keys (insertion replaces). -/
def mapLookup {α : Type} : List (String × α) → String → Option α
  | [], _ => none
  | (k, v) :: m, k₀ => if k = k₀ then some v else mapLookup m k₀

/-- Assignment `m[k] = v` in a Go `map`: replace the binding if the key is
present, append it otherwise. -/
def mapInsert {α : Type} : List (String × α) → String → α → List (String × α)
  | [], k, v => [(k, v)]
  | (k₁, v₁) :: m, k, v =>
    if k₁ = k then (k, v) :: m else (k₁, v₁) :: mapInsert m k v

namespace Spanexporter

/-- A `prometheus.Histogram` as configured and used by `part_000`: its
`HistogramOpts` fields and the multiset of observations recorded into it
(`Observe` appends; bucket counters, sum and count are derived views of
this list inside the Prometheus client and are not consumed by the
repository's code). -/
structure Histogram where
  Namespace : String
  Name : String
  Help : String
  Buckets : List Int
  observations : List Int
deriving DecidableEq

/-- `Options` of `part_000`.  The `Registry` field is the external
Prometheus registry (its `Register` behaviour enters the model as the
`regFails` parameter below); `OnError` is modelled by whether a
caller-supplied callback is present. -/
structure Options where
  Namespace : String
  OnError : Bool
deriving DecidableEq

/-- The `collector` of `part_000`.  `registerOnce` is the state of the
`sync.Once`; `registerCalls` counts invocations of `reg.Register(c)`;
`callbackReports` and `logReports` count errors delivered to the
caller-supplied `OnError` callback resp. to `log.Printf` (the two branches
of `Options.onError`).  The mutexes guard the fields in the Go code; the
sequential model needs no locks (the interleaved model for the concurrency
claim is separate, below). -/
structure Collector where
  opts : Options
  registerOnce : Bool
  registerCalls : Nat
  callbackReports : Nat
  logReports : Nat
  registeredHistograms : List (String × Histogram)
deriving DecidableEq

/-- `newCollector` of `part_000` (the zero values of the `sync.Once` and
of the error counters made explicit). -/
def newCollector (opts : Options) : Collector :=
  { opts := opts, registerOnce := false, registerCalls := 0,
    callbackReports := 0, logReports := 0, registeredHistograms := [] }

/-- `Options.onError` of `part_000`: the error goes to the caller-supplied
callback when one is set, otherwise to `log.Printf`. -/
def onError (c : Collector) : Collector :=
  if c.opts.OnError then { c with callbackReports := c.callbackReports + 1 }
  else { c with logReports := c.logReports + 1 }

/-- `collector.ensureRegisteredOnce` of `part_000`: a `sync.Once` around
`reg.Register(c)`, reporting a registration error through
`Options.onError`.  `regFails` is the external registry's answer. -/
def ensureRegisteredOnce (regFails : Bool) (c : Collector) : Collector :=
  if c.registerOnce then c
  else
    let c₁ := { c with registerOnce := true, registerCalls := c.registerCalls + 1 }
    if regFails then onError c₁ else c₁

/-- The fixed bucket boundaries of `part_000` lines 80-89. -/
def histogramBuckets : List Int :=
  [1, 10, 50, 100, 250, 500, 1000, 10000, 60000, 120000]

/-- `collector.getHistogram` of `part_000`.  Returns the updated collector
and the key `sig` under which the histogram returned to the caller is
stored; sequentially the returned `prometheus.Histogram` pointer is
exactly the map entry at `sig`, so the caller's `Observe` is an update of
that entry (`observeAt` below). -/
def getHistogram (regFails : Bool) (c : Collector) (span : SpanData) :
    Collector × String :=
  let sig := spanName c.opts.Namespace span
  match mapLookup c.registeredHistograms sig with
  | some _ => (ensureRegisteredOnce regFails c, sig)
  | none =>
    let h : Histogram :=
      { Namespace := c.opts.Namespace, Name := sanitize span.Name,
        Help := sanitize span.Name, Buckets := histogramBuckets,
        observations := [] }
    (ensureRegisteredOnce regFails
      { c with registeredHistograms := mapInsert c.registeredHistograms sig h },
     sig)

/-- `histo.Observe(v)` on the histogram stored at key `k`. -/
def observeAt (m : List (String × Histogram)) (k : String) (v : Int) :
    List (String × Histogram) :=
  m.map fun p =>
    if p.1 = k then (p.1, { p.2 with observations := p.2.observations ++ [v] })
    else p

/-- `Exporter.ExportSpan` of `part_000` lines 55-65: drop path-like names,
get or create the histogram, observe the truncated millisecond duration. -/
def ExportSpan (regFails : Bool) (c : Collector) (sd : SpanData) : Collector :=
  if urlName sd.Name then c
  else
    let r := getHistogram regFails c sd
    { r.1 with registeredHistograms :=
        observeAt r.1.registeredHistograms r.2 (goMillis (sd.EndTime - sd.StartTime)) }

/-- `collector.Collect` of `part_000`: every registered histogram is sent
on the channel (Go map iteration order is unspecified; this model fixes
insertion order, which no claim depends on). -/
def Collect (c : Collector) : List Histogram :=
  c.registeredHistograms.map Prod.snd

/-- The observations of the histogram stored under key `k`. -/
def observationsOf (c : Collector) (k : String) : List Int :=
  match mapLookup c.registeredHistograms k with
  | some h => h.observations
  | none => []

end Spanexporter

namespace Server

/-- An OpenCensus `view.View` as built by `spanconverter.go`
(`Aggregation: view.Distribution(...)` is kept as its bucket bounds). -/
structure View where
  Name : String
  Description : String
  AggregationBuckets : List Int
deriving DecidableEq

/-- `Options` of `spanconverter.go` (the `view.Exporter` field is an
external collaborator and does not influence any modelled behaviour). -/
structure COptions where
  Namespace : String
deriving DecidableEq

/-- The `Converter` of `spanconverter.go`: the `measures` map (its values,
`*stats.Float64Measure` pointers, carry no state the code reads back, so
they are modelled as `Unit`) and the list of views registered with
`view.Register`. -/
structure Converter where
  opts : COptions
  measures : List (String × Unit)
  views : List View
deriving DecidableEq

/-- `NewConverter` of `spanconverter.go`. -/
def newConverter (opts : COptions) : Converter :=
  { opts := opts, measures := [], views := [] }

/-- The bucket bounds of `view.Distribution(0, 1<<32, 2<<32, 3<<32)` in
`spanconverter.go` line 67 (2<<32 is 2·2^32, 3<<32 is 3·2^32). -/
def distributionBuckets : List Int :=
  [0, 4294967296, 8589934592, 12884901888]

/-- `Converter.getMeasure` of `spanconverter.go` lines 54-86: look the
signature up; on a miss create the measure, build a view with the
`Distribution` aggregation, insert the measure and register the view. -/
def getMeasure (c : Converter) (span : SpanData) : Converter × String :=
  let sig := spanName c.opts.Namespace span
  match mapLookup c.measures sig with
  | some _ => (c, sig)
  | none =>
    let v : View :=
      { Name := spanName c.opts.Namespace span,
        Description := spanName c.opts.Namespace span,
        AggregationBuckets := distributionBuckets }
    ({ c with measures := mapInsert c.measures sig (),
              views := c.views ++ [v] }, sig)

/-- `Converter.ExportSpan` of `spanconverter.go` lines 45-52.  Note two
faithful details: there is NO `urlName` filter here (`urlName` is defined
in this file but never called), and `m.M(spanTimeMillis)` merely
constructs a `stats.Measurement` that is never passed to `stats.Record`,
so the computed duration is discarded and no observation is stored. -/
def ExportSpan (c : Converter) (sd : SpanData) : Converter :=
  let r := getMeasure c sd
  let _spanTimeMillis := goMillis (sd.EndTime - sd.StartTime)
  r.1

end Server

/-! ### Interleaved model of `collector.getHistogram` (part_000)

For the concurrency claim the lock-protected regions of
`getHistogram`/`ExportSpan` are taken as the atomic steps of a thread:

* `ready → readDone`: lines 71-73, the locked read of
  `registeredHistograms[sig]`;
* `readDone → haveHisto`: lines 75-94 — on a hit just keep the pointer
  that was read; on a miss construct the histogram (unlocked, lines 76-90)
  and insert it under the lock (lines 91-93).  Construction and insertion
  are scheduled here as one step, which is one of the schedules the real
  code admits (no other thread runs between them).
* `haveHisto → done`: line 64, `histo.Observe(...)` on the pointer the
  thread holds — note: on the histogram OBJECT, not on the current map
  entry.

Histogram objects live in `heap` (index = allocation order) so that a map
entry that is overwritten leaves the overwritten object, and observations
into it, intact but unreachable from the map. -/

inductive PC where
  | ready
  | readDone
  | haveHisto
  | done
deriving DecidableEq

structure Thread where
  pc : PC
  found : Option Nat
  my : Nat
deriving DecidableEq

structure CState where
  heap : List (List Int)
  table : List (String × Nat)
  threads : List Thread
deriving DecidableEq

/-- One atomic step of one thread of `getHistogram` + `Observe`, all
threads recording a span with signature `sig`. -/
def stepThread (sig : String) (obs : Int) (s : CState) (t : Thread) :
    CState × Thread :=
  match t.pc with
  | .ready =>
    (s, { t with pc := .readDone, found := mapLookup s.table sig })
  | .readDone =>
    match t.found with
    | some i => (s, { t with pc := .haveHisto, my := i })
    | none =>
      let i := s.heap.length
      ({ s with heap := s.heap ++ [[]], table := mapInsert s.table sig i },
       { t with pc := .haveHisto, my := i })
  | .haveHisto =>
    ({ s with heap := s.heap.set t.my (((s.heap.get? t.my).getD []) ++ [obs]) },
     { t with pc := .done })
  | .done => (s, t)

/-- Run one step of the thread with index `tid` (out-of-range indices are
no-ops); `obsFor` gives each thread's observation value. -/
def runStep (sig : String) (obsFor : Nat → Int) (s : CState) (tid : Nat) :
    CState :=
  match s.threads.get? tid with
  | none => s
  | some t =>
    let r := stepThread sig (obsFor tid) s t
    { r.1 with threads := r.1.threads.set tid r.2 }

/-- Run a schedule: the list names, in order, which thread takes the next
atomic step. -/
def runSched (sig : String) (obsFor : Nat → Int) : List Nat → CState → CState
  | [], s => s
  | tid :: rest, s => runSched sig obsFor rest (runStep sig obsFor s tid)

/-- Two threads, both at the start of `getHistogram`, empty registry. -/
def initTwo : CState :=
  { heap := [], table := [],
    threads := [{ pc := .ready, found := none, my := 0 },
                { pc := .ready, found := none, my := 0 }] }

/-- What a `Collect` call sees in the interleaved model: for every map
entry, the observations of the histogram object it points to. -/
def collectedConc (s : CState) : List (List Int) :=
  s.table.map fun p => (s.heap.get? p.2).getD []

/-! ### Lemmas about the sanitizer -/

theorem goLen_append (a b : List Char) : goLen (a ++ b) = goLen a + goLen b := by
  induction a with
  | nil => simp [goLen]
  | cons c cs ih => simp [goLen, ih]; omega

theorem utf8Size_sanitizeRune_le (c : Char) :
    (sanitizeRune c).utf8Size ≤ c.utf8Size := by
  unfold sanitizeRune
  split
  · exact Nat.le_refl _
  · have h1 : Char.utf8Size '_' = 1 := by decide
    have h2 : 0 < c.utf8Size := Char.utf8Size_pos c
    omega

theorem goLen_map_sanitizeRune_le (l : List Char) :
    goLen (l.map sanitizeRune) ≤ goLen l := by
  induction l with
  | nil => simp [goLen]
  | cons c cs ih =>
    simp only [List.map_cons, goLen]
    have := utf8Size_sanitizeRune_le c
    omega

theorem fit_budget (l : List Char) (b : Nat) :
    goLen (fitKeep b l) + fitRest b l = b := by
  induction l generalizing b with
  | nil => simp [fitKeep, fitRest, goLen]
  | cons c cs ih =>
    by_cases h : c.utf8Size ≤ b
    · have := ih (b - c.utf8Size)
      simp only [fitKeep, fitRest, if_pos h, goLen]
      omega
    · simp [fitKeep, fitRest, if_neg h, goLen]

theorem goLen_replicate_underscore (n : Nat) :
    goLen (List.replicate n '_') = n := by
  induction n with
  | zero => rfl
  | succ k ih =>
    have h1 : Char.utf8Size '_' = 1 := by decide
    simp only [List.replicate_succ, goLen, ih, h1]
    omega

theorem sanitizeRune_replacement : sanitizeRune '�' = '_' := by decide

theorem goLen_map_goTruncate_le (s : List Char) :
    goLen ((goTruncate s).map sanitizeRune) ≤ labelKeySizeLimit := by
  unfold goTruncate
  split
  · rw [List.map_append, goLen_append]
    have h1 := goLen_map_sanitizeRune_le (fitKeep labelKeySizeLimit s)
    have h2 := fit_budget s labelKeySizeLimit
    have h3 : (List.replicate (fitRest labelKeySizeLimit s) '�').map sanitizeRune
        = List.replicate (fitRest labelKeySizeLimit s) '_' := by
      rw [List.map_replicate, sanitizeRune_replacement]
    rw [h3, goLen_replicate_underscore]
    omega
  · rename_i h
    exact Nat.le_trans (goLen_map_sanitizeRune_le s) (Nat.le_of_not_lt h)

theorem goLen_length_le (l : List Char) : l.length ≤ goLen l := by
  induction l with
  | nil => simp [goLen]
  | cons c cs ih =>
    have := Char.utf8Size_pos c
    simp only [List.length_cons, goLen]
    omega

theorem headIsUnderscoreByte_k (l : List Char) :
    headIsUnderscoreByte ('k' :: l) = false := by
  simp [headIsUnderscoreByte]

theorem sanitizeChars_goLen_le (s : List Char) : goLen (sanitizeChars s) ≤ 104 := by
  by_cases h0 : s = []
  · simp [sanitizeChars, h0, goLen]
  · have hm := goLen_map_goTruncate_le s
    simp only [sanitizeChars, if_neg h0]
    by_cases hd : headIsDigitByte ((goTruncate s).map sanitizeRune) = true
    · rw [if_pos hd, headIsUnderscoreByte_k, if_neg (by simp)]
      simp only [goLen]
      have hk : Char.utf8Size 'k' = 1 := by decide
      have he : Char.utf8Size 'e' = 1 := by decide
      have hy : Char.utf8Size 'y' = 1 := by decide
      have hu : Char.utf8Size '_' = 1 := by decide
      simp only [labelKeySizeLimit] at hm
      omega
    · rw [if_neg hd]
      by_cases hu : headIsUnderscoreByte ((goTruncate s).map sanitizeRune) = true
      · rw [if_pos hu]
        simp only [goLen]
        have hk : Char.utf8Size 'k' = 1 := by decide
        have he : Char.utf8Size 'e' = 1 := by decide
        have hy : Char.utf8Size 'y' = 1 := by decide
        simp only [labelKeySizeLimit] at hm
        omega
      · rw [if_neg hu]
        simp only [labelKeySizeLimit] at hm
        omega

theorem sanitizeRune_class (d : Char) :
    goIsLetter (sanitizeRune d) = true ∨ goIsDigit (sanitizeRune d) = true ∨
    sanitizeRune d = '_' := by
  unfold sanitizeRune
  split
  · rename_i h
    rcases Bool.or_eq_true_iff.mp h with h1 | h1
    · exact Or.inl h1
    · exact Or.inr (Or.inl h1)
  · exact Or.inr (Or.inr rfl)

theorem sanitizeChars_class (s : List Char) :
    ∀ c ∈ sanitizeChars s, goIsLetter c = true ∨ goIsDigit c = true ∨ c = '_' := by
  intro c hc
  by_cases h0 : s = []
  · simp [sanitizeChars, h0] at hc
  · simp only [sanitizeChars, if_neg h0] at hc
    have hmem : ∀ x ∈ (goTruncate s).map sanitizeRune,
        goIsLetter x = true ∨ goIsDigit x = true ∨ x = '_' := by
      intro x hx
      obtain ⟨d, _, rfl⟩ := List.mem_map.mp hx
      exact sanitizeRune_class d
    have hk : goIsLetter 'k' = true := by decide
    have he : goIsLetter 'e' = true := by decide
    have hy : goIsLetter 'y' = true := by decide
    by_cases hd : headIsDigitByte ((goTruncate s).map sanitizeRune) = true
    · rw [if_pos hd, headIsUnderscoreByte_k, if_neg (by simp)] at hc
      simp only [List.mem_cons] at hc
      rcases hc with rfl | rfl | rfl | rfl | hc
      · exact Or.inl hk
      · exact Or.inl he
      · exact Or.inl hy
      · exact Or.inr (Or.inr rfl)
      · exact hmem c hc
    · rw [if_neg hd] at hc
      by_cases hu : headIsUnderscoreByte ((goTruncate s).map sanitizeRune) = true
      · rw [if_pos hu] at hc
        simp only [List.mem_cons] at hc
        rcases hc with rfl | rfl | rfl | hc
        · exact Or.inl hk
        · exact Or.inl he
        · exact Or.inl hy
        · exact hmem c hc
      · rw [if_neg hu] at hc
        exact hmem c hc

theorem utf8Size_eq_one_of_ascii (c : Char) (h : c.toNat ≤ 127) :
    c.utf8Size = 1 := by
  unfold Char.utf8Size
  rw [if_pos]
  rw [UInt32.le_def]
  exact h

theorem mem_fitKeep (b : Nat) (l : List Char) (c : Char)
    (hc : c ∈ fitKeep b l) : c ∈ l := by
  induction l generalizing b with
  | nil => simp [fitKeep] at hc
  | cons d ds ih =>
    by_cases h : d.utf8Size ≤ b
    · rw [fitKeep, if_pos h] at hc
      rcases List.mem_cons.mp hc with h1 | hc
      · exact List.mem_cons.mpr (Or.inl h1)
      · exact List.mem_cons_of_mem d (ih (b - d.utf8Size) hc)
    · rw [fitKeep, if_neg h] at hc
      simp at hc

theorem fitRest_ascii (l : List Char) (hA : ∀ c ∈ l, c.utf8Size = 1) (b : Nat) :
    fitRest b l = b - l.length := by
  induction l generalizing b with
  | nil => simp [fitRest]
  | cons d ds ih =>
    have hd : d.utf8Size = 1 := hA d (List.mem_cons_self d ds)
    have hds : ∀ c ∈ ds, c.utf8Size = 1 := fun c hc => hA c (List.mem_cons_of_mem d hc)
    by_cases h : d.utf8Size ≤ b
    · rw [fitRest, if_pos h, ih hds]
      simp only [List.length_cons]
      omega
    · rw [fitRest, if_neg h]
      simp only [List.length_cons]
      omega

theorem goLen_ascii (l : List Char) (hA : ∀ c ∈ l, c.utf8Size = 1) :
    goLen l = l.length := by
  induction l with
  | nil => rfl
  | cons d ds ih =>
    have hd : d.utf8Size = 1 := hA d (List.mem_cons_self d ds)
    have hds : ∀ c ∈ ds, c.utf8Size = 1 := fun c hc => hA c (List.mem_cons_of_mem d hc)
    simp only [goLen, hd, ih hds, List.length_cons]
    omega

theorem mem_goTruncate_ascii (s : List Char) (hA : ∀ c ∈ s, c.toNat ≤ 127)
    (c : Char) (hc : c ∈ goTruncate s) : c ∈ s := by
  have h1 : ∀ d ∈ s, d.utf8Size = 1 := fun d hd => utf8Size_eq_one_of_ascii d (hA d hd)
  unfold goTruncate at hc
  split at hc
  · rename_i h
    rw [goLen_ascii s h1] at h
    rw [fitRest_ascii s h1] at hc
    have hz : labelKeySizeLimit - s.length = 0 := by
      simp only [labelKeySizeLimit] at h ⊢
      omega
    rw [hz, List.replicate_zero, List.append_nil] at hc
    exact mem_fitKeep labelKeySizeLimit s c hc
  · exact hc

theorem goIsLetter_of_ascii (c : Char) (h : c.toNat ≤ 127) :
    goIsLetter c = c.isAlpha := by
  cases ha : c.isAlpha
  · simp only [goIsLetter, ha, Bool.false_or, Bool.or_eq_false_iff,
      decide_eq_false_iff_not, Bool.and_eq_false_iff, Bool.not_eq_true]
    refine ⟨⟨?_, ?_⟩, ?_⟩ <;> omega
  · simp [goIsLetter, ha]

theorem sanitizeChars_ascii (s : List Char) (hA : ∀ d ∈ s, d.toNat ≤ 127) :
    ∀ c ∈ sanitizeChars s, c.isAlpha = true ∨ c.isDigit = true ∨ c = '_' := by
  intro c hc
  by_cases h0 : s = []
  · simp [sanitizeChars, h0] at hc
  · simp only [sanitizeChars, if_neg h0] at hc
    have hmem : ∀ x ∈ (goTruncate s).map sanitizeRune,
        x.isAlpha = true ∨ x.isDigit = true ∨ x = '_' := by
      intro x hx
      obtain ⟨d, hd, rfl⟩ := List.mem_map.mp hx
      have hda : d.toNat ≤ 127 := hA d (mem_goTruncate_ascii s hA d hd)
      unfold sanitizeRune
      split
      · rename_i h
        rw [goIsLetter_of_ascii d hda] at h
        rcases Bool.or_eq_true_iff.mp h with h1 | h1
        · exact Or.inl h1
        · exact Or.inr (Or.inl h1)
      · exact Or.inr (Or.inr rfl)
    have hk : Char.isAlpha 'k' = true := by decide
    have he : Char.isAlpha 'e' = true := by decide
    have hy : Char.isAlpha 'y' = true := by decide
    by_cases hd : headIsDigitByte ((goTruncate s).map sanitizeRune) = true
    · rw [if_pos hd, headIsUnderscoreByte_k, if_neg (by simp)] at hc
      simp only [List.mem_cons] at hc
      rcases hc with rfl | rfl | rfl | rfl | hc
      · exact Or.inl hk
      · exact Or.inl he
      · exact Or.inl hy
      · exact Or.inr (Or.inr rfl)
      · exact hmem c hc
    · rw [if_neg hd] at hc
      by_cases hu : headIsUnderscoreByte ((goTruncate s).map sanitizeRune) = true
      · rw [if_pos hu] at hc
        simp only [List.mem_cons] at hc
        rcases hc with rfl | rfl | rfl | hc
        · exact Or.inl hk
        · exact Or.inl he
        · exact Or.inl hy
        · exact hmem c hc
      · rw [if_neg hu] at hc
        exact hmem c hc

/-! ### Lemmas about the sequential collector -/

theorem ensure_regs (f : Bool) (c : Spanexporter.Collector) :
    (Spanexporter.ensureRegisteredOnce f c).registeredHistograms
      = c.registeredHistograms := by
  obtain ⟨⟨ns, oe⟩, rO, rC, cb, lg, regs⟩ := c
  cases rO <;> cases f <;> cases oe <;> rfl

theorem ensure_opts (f : Bool) (c : Spanexporter.Collector) :
    (Spanexporter.ensureRegisteredOnce f c).opts = c.opts := by
  obtain ⟨⟨ns, oe⟩, rO, rC, cb, lg, regs⟩ := c
  cases rO <;> cases f <;> cases oe <;> rfl

theorem ExportSpan_opts (f : Bool) (c : Spanexporter.Collector) (sd : SpanData) :
    (Spanexporter.ExportSpan f c sd).opts = c.opts := by
  unfold Spanexporter.ExportSpan Spanexporter.getHistogram
  split
  · rfl
  · dsimp only
    split <;> simp [ensure_opts]

theorem spanName_congr (ns : String) (sd₁ sd₂ : SpanData)
    (h : sd₁.Name = sd₂.Name) : spanName ns sd₁ = spanName ns sd₂ := by
  simp [spanName, h]

theorem ExportSpan_fresh (f : Bool) (o : Spanexporter.Options) (sd : SpanData)
    (hurl : urlName sd.Name = false) :
    (Spanexporter.ExportSpan f (Spanexporter.newCollector o) sd).registeredHistograms
      = [(spanName o.Namespace sd,
          { Namespace := o.Namespace, Name := sanitize sd.Name,
            Help := sanitize sd.Name, Buckets := Spanexporter.histogramBuckets,
            observations := [goMillis (sd.EndTime - sd.StartTime)] })] := by
  unfold Spanexporter.ExportSpan
  rw [if_neg (by simp [hurl])]
  simp [Spanexporter.getHistogram, Spanexporter.newCollector, mapLookup,
    mapInsert, ensure_regs, Spanexporter.observeAt]

theorem ExportSpan_hit (f : Bool) (c : Spanexporter.Collector) (sd : SpanData)
    (k : String) (h : Spanexporter.Histogram)
    (hurl : urlName sd.Name = false)
    (hm : c.registeredHistograms = [(k, h)])
    (hk : spanName c.opts.Namespace sd = k) :
    (Spanexporter.ExportSpan f c sd).registeredHistograms
      = [(k, { h with observations :=
            h.observations ++ [goMillis (sd.EndTime - sd.StartTime)] })] := by
  unfold Spanexporter.ExportSpan
  rw [if_neg (by simp [hurl])]
  simp [Spanexporter.getHistogram, hk, hm, mapLookup, ensure_regs,
    Spanexporter.observeAt]

theorem observationsOf_singleton (o : Spanexporter.Options)
    (rO : Bool) (rC cb lg : Nat) (k : String) (h : Spanexporter.Histogram) :
    Spanexporter.observationsOf
      { opts := o, registerOnce := rO, registerCalls := rC,
        callbackReports := cb, logReports := lg,
        registeredHistograms := [(k, h)] } k = h.observations := by
  simp [Spanexporter.observationsOf, mapLookup]

/-! ### Registration bookkeeping invariant (for the one-shot registration) -/

/-- Relation between the `sync.Once` flag, the count of `reg.Register`
invocations and the error counters that `ExportSpan` maintains when the
external registry answers `f` (`true` = registration fails). -/
def regInv (f : Bool) (o : Spanexporter.Options) (c : Spanexporter.Collector) : Prop :=
  c.opts = o ∧
  c.registerCalls = (if c.registerOnce then 1 else 0) ∧
  c.callbackReports = (if f && o.OnError then c.registerCalls else 0) ∧
  c.logReports = (if f && !o.OnError then c.registerCalls else 0)

theorem regInv_regs_update (f : Bool) (o : Spanexporter.Options)
    (c : Spanexporter.Collector) (m : List (String × Spanexporter.Histogram))
    (hinv : regInv f o c) :
    regInv f o { c with registeredHistograms := m } := hinv

theorem ensure_inv (f : Bool) (o : Spanexporter.Options)
    (c : Spanexporter.Collector) (hinv : regInv f o c) :
    regInv f o (Spanexporter.ensureRegisteredOnce f c) := by
  obtain ⟨⟨ns, oe⟩, rO, rC, cb, lg, regs⟩ := c
  obtain ⟨ho, h1, h2, h3⟩ := hinv
  subst ho
  cases rO <;> cases f <;> cases oe <;>
    simp_all [regInv, Spanexporter.ensureRegisteredOnce, Spanexporter.onError]

theorem ExportSpan_inv (f : Bool) (o : Spanexporter.Options)
    (c : Spanexporter.Collector) (sd : SpanData) (hinv : regInv f o c) :
    regInv f o (Spanexporter.ExportSpan f c sd) := by
  unfold Spanexporter.ExportSpan
  split
  · exact hinv
  · unfold Spanexporter.getHistogram
    dsimp only
    split
    · exact regInv_regs_update f o _ _ (ensure_inv f o c hinv)
    · exact regInv_regs_update f o _ _
        (ensure_inv f o _ (regInv_regs_update f o c _ hinv))

theorem foldl_inv (f : Bool) (o : Spanexporter.Options) (spans : List SpanData)
    (c : Spanexporter.Collector) (hinv : regInv f o c) :
    regInv f o (spans.foldl (Spanexporter.ExportSpan f) c) := by
  induction spans generalizing c with
  | nil => exact hinv
  | cons sd tl ih => exact ih _ (ExportSpan_inv f o c sd hinv)

theorem ensure_once (f : Bool) (c : Spanexporter.Collector) :
    (Spanexporter.ensureRegisteredOnce f c).registerOnce
      = (c.registerOnce || true) := by
  obtain ⟨⟨ns, oe⟩, rO, rC, cb, lg, regs⟩ := c
  cases rO <;> cases f <;> cases oe <;> rfl

theorem ExportSpan_once (f : Bool) (c : Spanexporter.Collector) (sd : SpanData) :
    (Spanexporter.ExportSpan f c sd).registerOnce
      = (c.registerOnce || !(urlName sd.Name)) := by
  unfold Spanexporter.ExportSpan
  split
  · rename_i h
    simp [h]
  · rename_i h
    have hn : urlName sd.Name = false := by
      revert h
      cases urlName sd.Name <;> simp
    rw [hn]
    unfold Spanexporter.getHistogram
    dsimp only
    split <;> simp [ensure_once]

theorem foldl_once (f : Bool) (spans : List SpanData)
    (c : Spanexporter.Collector) :
    (spans.foldl (Spanexporter.ExportSpan f) c).registerOnce
      = (c.registerOnce || spans.any fun sd => !(urlName sd.Name)) := by
  induction spans generalizing c with
  | nil => simp
  | cons sd tl ih =>
    simp only [List.foldl_cons, ih, ExportSpan_once, List.any_cons]
    cases c.registerOnce <;> cases urlName sd.Name <;> simp

theorem ExportSpan_regs_indep (f₁ f₂ : Bool) (c₁ c₂ : Spanexporter.Collector)
    (sd : SpanData) (ho : c₁.opts = c₂.opts)
    (hm : c₁.registeredHistograms = c₂.registeredHistograms) :
    (Spanexporter.ExportSpan f₁ c₁ sd).opts = (Spanexporter.ExportSpan f₂ c₂ sd).opts ∧
    (Spanexporter.ExportSpan f₁ c₁ sd).registeredHistograms
      = (Spanexporter.ExportSpan f₂ c₂ sd).registeredHistograms := by
  refine ⟨by rw [ExportSpan_opts, ExportSpan_opts, ho], ?_⟩
  unfold Spanexporter.ExportSpan
  by_cases hu : urlName sd.Name = true
  · rw [if_pos hu, if_pos hu, hm]
  · rw [if_neg hu, if_neg hu]
    unfold Spanexporter.getHistogram
    dsimp only
    rw [ho, hm]
    split <;> simp [ensure_regs, hm]

theorem foldl_regs_indep (f₁ f₂ : Bool) (spans : List SpanData)
    (c₁ c₂ : Spanexporter.Collector) (ho : c₁.opts = c₂.opts)
    (hm : c₁.registeredHistograms = c₂.registeredHistograms) :
    (spans.foldl (Spanexporter.ExportSpan f₁) c₁).opts
      = (spans.foldl (Spanexporter.ExportSpan f₂) c₂).opts ∧
    (spans.foldl (Spanexporter.ExportSpan f₁) c₁).registeredHistograms
      = (spans.foldl (Spanexporter.ExportSpan f₂) c₂).registeredHistograms := by
  induction spans generalizing c₁ c₂ with
  | nil => exact ⟨ho, hm⟩
  | cons sd tl ih =>
    have h := ExportSpan_regs_indep f₁ f₂ c₁ c₂ sd ho hm
    simpa using ih _ _ h.1 h.2

/-! ### Bucket preservation (for the bucket-boundary claim) -/

theorem mem_mapInsert {α : Type} (m : List (String × α)) (k : String) (v : α)
    (p : String × α) (hp : p ∈ mapInsert m k v) : p = (k, v) ∨ p ∈ m := by
  induction m with
  | nil =>
    simp [mapInsert] at hp
    exact Or.inl hp
  | cons q m ih =>
    obtain ⟨k₁, v₁⟩ := q
    by_cases h : k₁ = k
    · rw [mapInsert, if_pos h] at hp
      rcases List.mem_cons.mp hp with h1 | h1
      · exact Or.inl h1
      · exact Or.inr (List.mem_cons_of_mem _ h1)
    · rw [mapInsert, if_neg h] at hp
      rcases List.mem_cons.mp hp with h1 | h1
      · exact Or.inr (h1 ▸ List.mem_cons_self _ _)
      · rcases ih h1 with h2 | h2
        · exact Or.inl h2
        · exact Or.inr (List.mem_cons_of_mem _ h2)

theorem mem_observeAt (m : List (String × Spanexporter.Histogram)) (k : String)
    (v : Int) (p : String × Spanexporter.Histogram)
    (hp : p ∈ Spanexporter.observeAt m k v) :
    ∃ q ∈ m, p.2.Buckets = q.2.Buckets := by
  unfold Spanexporter.observeAt at hp
  obtain ⟨q, hq, hpq⟩ := List.mem_map.mp hp
  refine ⟨q, hq, ?_⟩
  by_cases h : q.1 = k
  · rw [if_pos h] at hpq
    rw [← hpq]
  · rw [if_neg h] at hpq
    rw [← hpq]

theorem ExportSpan_buckets (f : Bool) (c : Spanexporter.Collector) (sd : SpanData)
    (hc : ∀ p ∈ c.registeredHistograms, p.2.Buckets = Spanexporter.histogramBuckets) :
    ∀ p ∈ (Spanexporter.ExportSpan f c sd).registeredHistograms,
      p.2.Buckets = Spanexporter.histogramBuckets := by
  intro p hp
  unfold Spanexporter.ExportSpan at hp
  by_cases hu : urlName sd.Name = true
  · rw [if_pos hu] at hp
    exact hc p hp
  · rw [if_neg hu] at hp
    unfold Spanexporter.getHistogram at hp
    dsimp only at hp
    split at hp
    · obtain ⟨q, hq, hbq⟩ := mem_observeAt _ _ _ p hp
      rw [ensure_regs] at hq
      rw [hbq]
      exact hc q hq
    · obtain ⟨q, hq, hbq⟩ := mem_observeAt _ _ _ p hp
      rw [ensure_regs] at hq
      rcases mem_mapInsert _ _ _ q hq with h1 | h1
      · rw [hbq, h1]
      · rw [hbq]
        exact hc q h1

/-! ### Arithmetic facts about the millisecond truncation -/

theorem goMillis_nonpos (d : Int) (h : d ≤ 0) : goMillis d ≤ 0 := by
  unfold goMillis
  have h1 : d = -(-d) := by omega
  rw [h1, Int.neg_tdiv]
  have h2 : 0 ≤ Int.tdiv (-d) 1000000 := Int.tdiv_nonneg (by omega) (by decide)
  omega

theorem goMillis_small_neg (d : Int) (h1 : -1000000 < d) (h2 : d ≤ 0) :
    goMillis d = 0 := by
  unfold goMillis
  have h3 : d = -(-d) := by omega
  rw [h3, Int.neg_tdiv, Int.tdiv_eq_zero_of_lt (by omega) (by omega)]
  rfl

/-! ### The claims -/

/-- Options with no namespace and no error callback (zero-value `Options`). -/
def optsPlain : Spanexporter.Options := { Namespace := "", OnError := false }

/-- C1, counterexample: a span whose `EndTime` is 2 ms before its
`StartTime` is recorded with observation -2, a negative value — the code
does not clamp negative durations to zero before recording. -/
theorem c1_counterexample :
    Spanexporter.observationsOf
        (Spanexporter.ExportSpan false (Spanexporter.newCollector optsPlain)
          { Name := "checkout", StartTime := 2000000, EndTime := 0 }) "checkout"
      = [-2]
  ∧ goMillis ((0 : Int) - 2000000) < 0 := by decide

/-- C1, amended: a span with `EndTime` before `StartTime` is recorded (not
rejected) with observation `tdiv(duration, 1e6)` — truncation toward zero,
not a clamp: the observation is ≤ 0, and it is 0 exactly when the negative
duration is smaller in magnitude than one millisecond. -/
theorem c1_negative_duration_truncated (f : Bool) (o : Spanexporter.Options)
    (sd : SpanData) (hneg : sd.EndTime < sd.StartTime)
    (hurl : urlName sd.Name = false) :
    (Spanexporter.ExportSpan f (Spanexporter.newCollector o) sd).registeredHistograms.length = 1
  ∧ Spanexporter.observationsOf
        (Spanexporter.ExportSpan f (Spanexporter.newCollector o) sd)
        (spanName o.Namespace sd)
      = [goMillis (sd.EndTime - sd.StartTime)]
  ∧ goMillis (sd.EndTime - sd.StartTime) ≤ 0
  ∧ (-1000000 < sd.EndTime - sd.StartTime →
      goMillis (sd.EndTime - sd.StartTime) = 0) := by
  have hf := ExportSpan_fresh f o sd hurl
  refine ⟨?_, ?_, goMillis_nonpos _ (by omega),
    fun h => goMillis_small_neg _ h (by omega)⟩
  · rw [hf]
    rfl
  · unfold Spanexporter.observationsOf
    rw [hf]
    simp [mapLookup]

/-- C1, witness: instantiation of the amended theorem at a span 0.5 ms
"long" with the endpoints swapped — the observation is 0 there. -/
theorem c1_witness :
    (Spanexporter.ExportSpan false (Spanexporter.newCollector optsPlain)
        { Name := "checkout", StartTime := 500000, EndTime := 0 }).registeredHistograms.length = 1
  ∧ goMillis ((0 : Int) - 500000) = 0 :=
  ⟨(c1_negative_duration_truncated false optsPlain
      { Name := "checkout", StartTime := 500000, EndTime := 0 }
      (by decide) (by decide)).1,
   (c1_negative_duration_truncated false optsPlain
      { Name := "checkout", StartTime := 500000, EndTime := 0 }
      (by decide) (by decide)).2.2.2 (by decide)⟩

/-- C2: in the `spanexporter` implementation a span whose name starts with
`/` is a silent no-op for every collector state, and a span named
`checkout` yields one entry; but in the `server` Converter there is no
path filter — a span named `/users/42` registers a view (one collection
entry) exactly like `checkout` does. -/
theorem c2_path_filter_divergence :
    (∀ (f : Bool) (c : Spanexporter.Collector) (st et : Int),
        Spanexporter.ExportSpan f c { Name := "/users/42", StartTime := st, EndTime := et } = c)
  ∧ (Spanexporter.ExportSpan false (Spanexporter.newCollector optsPlain)
        { Name := "checkout", StartTime := 0, EndTime := 0 }).registeredHistograms.length = 1
  ∧ (Server.ExportSpan (Server.newConverter { Namespace := "" })
        { Name := "/users/42", StartTime := 0, EndTime := 0 }).views.length = 1
  ∧ (Server.ExportSpan (Server.newConverter { Namespace := "" })
        { Name := "checkout", StartTime := 0, EndTime := 0 }).views.length = 1 := by
  refine ⟨?_, by decide, by decide, by decide⟩
  intro f c st et
  unfold Spanexporter.ExportSpan
  dsimp only
  rw [if_pos (show urlName "/users/42" = true from by decide)]

/-- C3: recording two spans with the same (non-path) name sequentially
from a fresh collector leaves exactly one histogram, holding both
observations — the second call reuses the histogram the first created. -/
theorem c3_same_name_single_histogram (f : Bool) (o : Spanexporter.Options)
    (sd₁ sd₂ : SpanData) (hname : sd₁.Name = sd₂.Name)
    (hurl : urlName sd₁.Name = false) :
    (Spanexporter.ExportSpan f
        (Spanexporter.ExportSpan f (Spanexporter.newCollector o) sd₁)
        sd₂).registeredHistograms.length = 1
  ∧ Spanexporter.observationsOf
        (Spanexporter.ExportSpan f
          (Spanexporter.ExportSpan f (Spanexporter.newCollector o) sd₁) sd₂)
        (spanName o.Namespace sd₁)
      = [goMillis (sd₁.EndTime - sd₁.StartTime),
         goMillis (sd₂.EndTime - sd₂.StartTime)] := by
  have h1 := ExportSpan_fresh f o sd₁ hurl
  have hurl₂ : urlName sd₂.Name = false := hname ▸ hurl
  have hopts : (Spanexporter.ExportSpan f (Spanexporter.newCollector o) sd₁).opts = o :=
    ExportSpan_opts f (Spanexporter.newCollector o) sd₁
  have hk : spanName (Spanexporter.ExportSpan f (Spanexporter.newCollector o) sd₁).opts.Namespace sd₂
      = spanName o.Namespace sd₁ := by
    rw [hopts]
    exact (spanName_congr o.Namespace sd₁ sd₂ hname).symm
  have h2 := ExportSpan_hit f _ sd₂ (spanName o.Namespace sd₁) _ hurl₂ h1 hk
  constructor
  · rw [h2]
    rfl
  · unfold Spanexporter.observationsOf
    rw [h2]
    simp [mapLookup]

/-- C3, witness: two `checkout` spans of 1.5 ms and 3 ms — one histogram
with observations 1 and 3. -/
theorem c3_witness :
    (Spanexporter.ExportSpan false
        (Spanexporter.ExportSpan false (Spanexporter.newCollector optsPlain)
          { Name := "checkout", StartTime := 0, EndTime := 1500000 })
        { Name := "checkout", StartTime := 0, EndTime := 3000000 }).registeredHistograms.length = 1
  ∧ Spanexporter.observationsOf
        (Spanexporter.ExportSpan false
          (Spanexporter.ExportSpan false (Spanexporter.newCollector optsPlain)
            { Name := "checkout", StartTime := 0, EndTime := 1500000 })
          { Name := "checkout", StartTime := 0, EndTime := 3000000 })
        (spanName optsPlain.Namespace { Name := "checkout", StartTime := 0, EndTime := 1500000 })
      = [goMillis ((1500000 : Int) - 0), goMillis ((3000000 : Int) - 0)] :=
  c3_same_name_single_histogram false optsPlain
    { Name := "checkout", StartTime := 0, EndTime := 1500000 }
    { Name := "checkout", StartTime := 0, EndTime := 3000000 }
    rfl (by decide)

/-- Observation values of the two threads in the interleaving scenario. -/
def obsTwo : Nat → Int := fun tid => if tid = 0 then 5 else 7

/-- C4: `getHistogram` has no re-check under the write lock, so the
schedule in which both threads perform their locked read before either
inserts creates TWO histogram objects for the same unseen name: the second
insert overwrites the first in the map, thread 0's observation (5) lands
in an object no longer reachable from the map, and collection sees only
one of the two observations.  The sequential schedule does behave as the
claim demands (one histogram, both observations). -/
theorem c4_lost_update_interleaving :
    (runSched "checkout" obsTwo [0, 1, 0, 1, 0, 1] initTwo).heap = [[5], [7]]
  ∧ (runSched "checkout" obsTwo [0, 1, 0, 1, 0, 1] initTwo).table = [("checkout", 1)]
  ∧ collectedConc (runSched "checkout" obsTwo [0, 1, 0, 1, 0, 1] initTwo) = [[7]]
  ∧ (runSched "checkout" obsTwo [0, 0, 0, 1, 1, 1] initTwo).heap = [[5, 7]]
  ∧ collectedConc (runSched "checkout" obsTwo [0, 0, 0, 1, 1, 1] initTwo) = [[5, 7]] := by
  decide

/-- C5: for a span with `EndTime` at or after `StartTime` the recorded
observation is the floor of the nanosecond duration divided by 10^6 —
duration truncated to whole milliseconds. -/
theorem c5_duration_floor_millis (f : Bool) (o : Spanexporter.Options)
    (sd : SpanData) (hpos : 0 ≤ sd.EndTime - sd.StartTime)
    (hurl : urlName sd.Name = false) :
    Spanexporter.observationsOf
        (Spanexporter.ExportSpan f (Spanexporter.newCollector o) sd)
        (spanName o.Namespace sd)
      = [Int.fdiv (sd.EndTime - sd.StartTime) 1000000] := by
  have h1 := ExportSpan_fresh f o sd hurl
  have hfd : Int.fdiv (sd.EndTime - sd.StartTime) 1000000
      = Int.tdiv (sd.EndTime - sd.StartTime) 1000000 :=
    Int.fdiv_eq_tdiv hpos (by decide)
  unfold Spanexporter.observationsOf
  rw [h1]
  simp [mapLookup, goMillis, hfd]

/-- C5, witness: a 1500 µs span records exactly 1 (not 1.5, not 2). -/
theorem c5_witness :
    Spanexporter.observationsOf
        (Spanexporter.ExportSpan false (Spanexporter.newCollector optsPlain)
          { Name := "checkout", StartTime := 0, EndTime := 1500000 })
        (spanName optsPlain.Namespace { Name := "checkout", StartTime := 0, EndTime := 1500000 })
      = [Int.fdiv ((1500000 : Int) - 0) 1000000]
  ∧ Int.fdiv ((1500000 : Int) - 0) 1000000 = 1 :=
  ⟨c5_duration_floor_millis false optsPlain
      { Name := "checkout", StartTime := 0, EndTime := 1500000 }
      (by decide) (by decide),
   by decide⟩

/-- C6: every histogram the `spanexporter` collector ever holds carries
exactly the documented millisecond buckets 1, 10, 50, 100, 250, 500, 1000,
10000, 60000, 120000 — but the `server` Converter configures every view it
creates with `Distribution(0, 1<<32, 2<<32, 3<<32)` instead, a different
bucket set (the documented one appears there only as a commented-out
block). -/
theorem c6_bucket_boundaries :
    (∀ (f : Bool) (c : Spanexporter.Collector) (sd : SpanData),
        (∀ p ∈ c.registeredHistograms, p.2.Buckets = Spanexporter.histogramBuckets) →
        ∀ p ∈ (Spanexporter.ExportSpan f c sd).registeredHistograms,
          p.2.Buckets = Spanexporter.histogramBuckets)
  ∧ Spanexporter.histogramBuckets = [1, 10, 50, 100, 250, 500, 1000, 10000, 60000, 120000]
  ∧ (∀ (co : Server.COptions) (sd : SpanData),
        ∀ v ∈ (Server.ExportSpan (Server.newConverter co) sd).views,
          v.AggregationBuckets = Server.distributionBuckets)
  ∧ Server.distributionBuckets = [0, 4294967296, 8589934592, 12884901888]
  ∧ (Server.distributionBuckets == Spanexporter.histogramBuckets) = false := by
  refine ⟨ExportSpan_buckets, rfl, ?_, rfl, by decide⟩
  intro co sd v hv
  simp [Server.ExportSpan, Server.getMeasure, Server.newConverter, mapLookup] at hv
  simp [hv]

/-- C6, witness: the invariant applied to a fresh collector and a
`checkout` span — every registered histogram has the documented buckets. -/
theorem c6_witness :
    ((Spanexporter.ExportSpan false (Spanexporter.newCollector optsPlain)
        { Name := "checkout", StartTime := 0, EndTime := 1500000 }).registeredHistograms.all
      fun p => p.2.Buckets == Spanexporter.histogramBuckets) = true := by
  rw [List.all_eq_true]
  intro p hp
  have h := c6_bucket_boundaries.1 false (Spanexporter.newCollector optsPlain)
      { Name := "checkout", StartTime := 0, EndTime := 1500000 }
      (by intro q hq; simp [Spanexporter.newCollector] at hq) p hp
  simpa using h

/-- C7, counterexample: `sanitize` passes every Unicode letter through, so
the output of `sanitize "é"` contains the character é, which is not in
`[A-Za-z0-9_]` — the ASCII character-set claim fails on non-ASCII input. -/
theorem c7_counterexample :
    sanitize "é" = "é"
  ∧ 'é' ∈ (sanitize "é").data
  ∧ 'é'.isAlpha = false ∧ 'é'.isDigit = false ∧ ('é' == '_') = false := by
  decide

/-- C7, amended: every character of the output of `sanitize` is a letter,
a decimal digit (in the Unicode classes the Go code uses) or `_`;
restricted to ASCII inputs the output character set is exactly the claimed
`[A-Za-z0-9_]`; the prefix examples hold as stated. -/
theorem c7_sanitize_character_classes :
    (∀ s : String, ∀ c ∈ (sanitize s).data,
        goIsLetter c = true ∨ goIsDigit c = true ∨ c = '_')
  ∧ (∀ s : String, (∀ d ∈ s.data, d.toNat ≤ 127) →
        ∀ c ∈ (sanitize s).data, c.isAlpha = true ∨ c.isDigit = true ∨ c = '_')
  ∧ sanitize "123abc" = "key_123abc"
  ∧ sanitize "_abc" = "key_abc" := by
  refine ⟨?_, ?_, by decide, by decide⟩
  · intro s c hc
    exact sanitizeChars_class s.data c hc
  · intro s hA c hc
    exact sanitizeChars_ascii s.data hA c hc

/-- C7, witness: instantiations of both universal parts at concrete
inputs and characters. -/
theorem c7_witness :
    (goIsLetter 'c' = true ∨ goIsDigit 'c' = true ∨ 'c' = '_')
  ∧ ('b'.isAlpha = true ∨ 'b'.isDigit = true ∨ 'b' = '_') :=
  ⟨c7_sanitize_character_classes.1 "abc" 'c' (by decide),
   c7_sanitize_character_classes.2.1 "ab" (by decide) 'b' (by decide)⟩

/-- C8, counterexample: a span with the empty name is NOT dropped — the
exporter creates a histogram for it (keyed by the empty signature) and
records the observation, so the registry has one entry, not zero. -/
theorem c8_counterexample :
    (Spanexporter.ExportSpan false (Spanexporter.newCollector optsPlain)
        { Name := "", StartTime := 0, EndTime := 0 }).registeredHistograms.length = 1
  ∧ Spanexporter.observationsOf
        (Spanexporter.ExportSpan false (Spanexporter.newCollector optsPlain)
          { Name := "", StartTime := 0, EndTime := 0 }) ""
      = [0] := by decide

/-- C8, amended: `sanitize` does propagate the empty name as an empty
metric name, but the recording path does not treat it as "drop silently":
an empty-named span creates a histogram under the namespace-derived
signature and records its duration observation. -/
theorem c8_empty_name_recorded (f : Bool) (o : Spanexporter.Options)
    (sd : SpanData) (hname : sd.Name = "") :
    sanitize "" = ""
  ∧ (Spanexporter.ExportSpan f (Spanexporter.newCollector o) sd).registeredHistograms.length = 1
  ∧ Spanexporter.observationsOf
        (Spanexporter.ExportSpan f (Spanexporter.newCollector o) sd)
        (spanName o.Namespace sd)
      = [goMillis (sd.EndTime - sd.StartTime)] := by
  have hurl : urlName sd.Name = false := by
    rw [hname]
    decide
  have h1 := ExportSpan_fresh f o sd hurl
  refine ⟨by decide, ?_, ?_⟩
  · rw [h1]
    rfl
  · unfold Spanexporter.observationsOf
    rw [h1]
    simp [mapLookup]

/-- C8, witness: instantiation at an empty-named zero-length span. -/
theorem c8_witness :
    sanitize "" = ""
  ∧ (Spanexporter.ExportSpan false (Spanexporter.newCollector optsPlain)
        { Name := "", StartTime := 0, EndTime := 0 }).registeredHistograms.length = 1
  ∧ Spanexporter.observationsOf
        (Spanexporter.ExportSpan false (Spanexporter.newCollector optsPlain)
          { Name := "", StartTime := 0, EndTime := 0 })
        (spanName optsPlain.Namespace { Name := "", StartTime := 0, EndTime := 0 })
      = [goMillis ((0 : Int) - 0)] :=
  c8_empty_name_recorded false optsPlain
    { Name := "", StartTime := 0, EndTime := 0 } rfl

/-- C9: over any sequence of spans, `reg.Register` is invoked exactly once
when at least one span passes the path filter and never otherwise; the
registry contents are identical whether registration fails or succeeds
(failure is never surfaced to the span producer); and a failure is
reported exactly once, through the caller-supplied callback when one is
set and through the log otherwise. -/
theorem c9_registration_once (o : Spanexporter.Options) (f : Bool)
    (spans : List SpanData) :
    (spans.foldl (Spanexporter.ExportSpan f) (Spanexporter.newCollector o)).registerCalls
        = (if spans.any (fun sd => !(urlName sd.Name)) then 1 else 0)
  ∧ (spans.foldl (Spanexporter.ExportSpan f) (Spanexporter.newCollector o)).registerCalls ≤ 1
  ∧ (spans.foldl (Spanexporter.ExportSpan true) (Spanexporter.newCollector o)).registeredHistograms
        = (spans.foldl (Spanexporter.ExportSpan false) (Spanexporter.newCollector o)).registeredHistograms
  ∧ (if f
     then (if o.OnError
           then (spans.foldl (Spanexporter.ExportSpan f) (Spanexporter.newCollector o)).callbackReports
                   = (spans.foldl (Spanexporter.ExportSpan f) (Spanexporter.newCollector o)).registerCalls
              ∧ (spans.foldl (Spanexporter.ExportSpan f) (Spanexporter.newCollector o)).logReports = 0
           else (spans.foldl (Spanexporter.ExportSpan f) (Spanexporter.newCollector o)).logReports
                   = (spans.foldl (Spanexporter.ExportSpan f) (Spanexporter.newCollector o)).registerCalls
              ∧ (spans.foldl (Spanexporter.ExportSpan f) (Spanexporter.newCollector o)).callbackReports = 0)
     else (spans.foldl (Spanexporter.ExportSpan f) (Spanexporter.newCollector o)).callbackReports = 0
        ∧ (spans.foldl (Spanexporter.ExportSpan f) (Spanexporter.newCollector o)).logReports = 0) := by
  have hinv0 : regInv f o (Spanexporter.newCollector o) := by
    refine ⟨rfl, rfl, ?_, ?_⟩ <;> simp [Spanexporter.newCollector]
  obtain ⟨_, hcalls, hcb, hlg⟩ := foldl_inv f o spans _ hinv0
  have honce := foldl_once f spans (Spanexporter.newCollector o)
  rw [show (Spanexporter.newCollector o).registerOnce = false from rfl,
    Bool.false_or] at honce
  have hcalls' :
      (spans.foldl (Spanexporter.ExportSpan f) (Spanexporter.newCollector o)).registerCalls
        = (if spans.any (fun sd => !(urlName sd.Name)) then 1 else 0) := by
    rw [hcalls, honce]
  refine ⟨hcalls', ?_, (foldl_regs_indep true false spans _ _ rfl rfl).2, ?_⟩
  · rw [hcalls']
    split <;> omega
  · cases f
    · simp_all
    · simp only [Bool.true_and] at hcb hlg
      by_cases hOE : o.OnError = true
      · rw [hOE] at hcb hlg
        simp only [hOE, if_true, Bool.not_true, if_false] at hcb hlg ⊢
        exact ⟨hcb, hlg⟩
      · have hOE' : o.OnError = false := by
          revert hOE
          cases o.OnError <;> simp
        rw [hOE'] at hcb hlg
        simp only [hOE', if_false, Bool.not_false, if_true] at hcb hlg ⊢
        exact ⟨hlg, hcb⟩

set_option maxRecDepth 10000 in
/-- C10: the 100-byte truncation happens before the character mapping and
before the `key_`/`key` prefixing, so `sanitize` output is bounded by 104
bytes (and 104 characters), not 100 — and the bound 104 is attained, e.g.
by a 120-character name starting with a digit. -/
theorem c10_sanitize_length_bound :
    (∀ s : String, goLen (sanitize s).data ≤ 104 ∧ (sanitize s).data.length ≤ 104)
  ∧ goLen (sanitize ⟨'1' :: List.replicate 119 'a'⟩).data = 104
  ∧ 100 < goLen (sanitize ⟨'1' :: List.replicate 119 'a'⟩).data := by
  refine ⟨?_, by decide, by decide⟩
  intro s
  have h := sanitizeChars_goLen_le s.data
  exact ⟨h, Nat.le_trans (goLen_length_le _) h⟩

end SpanMetrics
